import Mathlib

/-!
Shallow embedding of the asynchronous coordination primitives of
`vs/base/common/async.ts`, `vs/base/common/lazy.ts` and the single-flight
request cache of `vs/editor/contrib/documentSymbols/outlineModel.ts`,
together with proofs of the behavioural properties claimed for them.

The JavaScript event loop is modelled by making every suspension point an
explicit step of a state machine, and promise settlement order an explicit
parameter where it matters.  Mutable fields of the source classes become
fields of Lean structures; closures registered on promises and tokens become
explicit lists processed in registration order.
-/

/-- A JavaScript value, to the extent truthiness and identity matter to the
promise helpers of `async.ts`: a rejection reason may be any JS value.
Error objects are represented by `err` with a tag distinguishing instances. -/
inductive JSVal where
  | undefined
  | null
  | bool (b : Bool)
  | num (n : Int)
  | str (s : String)
  | err (tag : Nat)
  deriving DecidableEq, Repr

/-- JavaScript truthiness of a `JSVal` (the `!!v` coercion): `undefined`,
`null`, `false`, `0` and the empty string are falsy, everything else truthy. -/
def JSVal.truthy : JSVal → Bool
  | .undefined => false
  | .null => false
  | .bool b => b
  | .num n => n != 0
  | .str s => s != ""
  | .err _ => true

namespace Async

namespace Promises

/-- The handler `settled` attaches to each input promise, translated from
`async.ts`: on rejection of input `i` it records the reason into `firstError`
when `firstError` is still falsy (`if (!firstError) firstError = error`) and
yields `undefined` for that slot; fulfilment leaves `firstError` alone. -/
def settledHandler (promises : List (Except JSVal α)) (firstError : JSVal)
    (i : Nat) : JSVal :=
  match promises[i]? with
  | some (.error reason) => if firstError.truthy then firstError else reason
  | _ => firstError

/-- The final value of the mutable `firstError` of `settled`: the handlers run
once per input, in the order the inputs settle (`order` lists input indices in
settlement order), starting from `undefined`. -/
def settledFirstError (promises : List (Except JSVal α)) (order : List Nat) :
    JSVal :=
  order.foldl (settledHandler promises) .undefined

/-- `Promises.settled`, translated from `async.ts`: every input is awaited
(`Promise.all` over the mapped handlers); a rejected input's slot becomes
`undefined` (`none`); afterwards `firstError` is thrown when
`typeof firstError !== 'undefined'`, otherwise the slot array is returned in
input order. -/
def settled (promises : List (Except JSVal α)) (order : List Nat) :
    Except JSVal (List (Option α)) :=
  let firstError := settledFirstError promises order
  if firstError = .undefined then
    .ok (promises.map fun p =>
      match p with
      | .ok v => some v
      | .error _ => none)
  else
    .error firstError

/-- The rejection reasons among `promises`, listed in settlement order. -/
def rejectionsInOrder (promises : List (Except JSVal α)) (order : List Nat) :
    List JSVal :=
  order.filterMap fun i =>
    match promises[i]? with
    | some (Except.error r) => some r
    | _ => none

end Promises

/-- `first`, translated from `async.ts`: run the factories strictly
sequentially (the recursive `loop` starts each factory only inside the `then`
of the previous promise), stop at the first result satisfying `shouldStop`,
fall back to `defaultValue` when the list is exhausted.  A factory is
represented by the value its promise resolves with; the second component
lists the factories actually invoked, in invocation order. -/
def first (promiseFactories : List α) (shouldStop : α → Bool)
    (defaultValue : Option α) : Option α × List α :=
  match promiseFactories with
  | [] => (defaultValue, [])
  | f :: rest =>
    if shouldStop f then (some f, [f])
    else
      let r := first rest shouldStop defaultValue
      (r.1, f :: r.2)

/-- Bookkeeping state of a `Throttler` (`async.ts`).  A factory is an element
of `α`; `val : α → β` (passed to the operations) gives the value the task it
starts eventually settles with, so `activePromise = some v` records an active
task that will settle with `v`. -/
structure Throttler (α β : Type) where
  activePromise : Option β := none
  queuedPromiseFactory : Option α := none
  queuedPromise : Bool := false
  deriving DecidableEq, Repr

/-- Which future a `Throttler.queue` call handed to its caller: a future of
the run the call itself started, or the shared future created over the
queued (coalesced) run. -/
inductive ThrottlerFuture where
  | active
  | queued
  deriving DecidableEq, Repr

/-- `Throttler.queue`, translated from `async.ts`.  If a task is active,
store the factory as `queuedPromiseFactory` (overwriting any previous one),
make sure the shared `queuedPromise` exists, and return a future over it;
no factory is invoked.  Otherwise invoke the factory now and make its task
the active promise.  The last component lists the factories this call
invoked (in the source, `promiseFactory()`). -/
def Throttler.queue (val : α → β) (s : Throttler α β) (f : α) :
    Throttler α β × ThrottlerFuture × List α :=
  if s.activePromise.isSome then
    ({ s with queuedPromiseFactory := some f, queuedPromise := true },
      .queued, [])
  else
    ({ s with activePromise := some (val f) }, .active, [f])

/-- Settlement of the active task, translated from `async.ts`.  The handlers
registered on `activePromise` run in registration order: first the per-call
handler clears `activePromise` and settles the caller's future with the
task's value; then, if the shared queued promise exists, `onComplete` runs:
it clears `queuedPromise`, re-queues the stored factory through `queue`
(which now finds no active task and therefore starts it immediately as the
new active task) and clears `queuedPromiseFactory`; the queued promise then
adopts the new run's future.  Returns the new state, the value the active
future settled with, and the factories invoked by `onComplete`. -/
def Throttler.completeActive (val : α → β) (s : Throttler α β) :
    Throttler α β × Option β × List α :=
  match s.activePromise with
  | none => (s, none, [])
  | some v =>
    let s1 := { s with activePromise := none }
    if s1.queuedPromise then
      let s2 := { s1 with queuedPromise := false }
      match s2.queuedPromiseFactory with
      | some f =>
        let r := Throttler.queue val s2 f
        ({ r.1 with queuedPromiseFactory := none }, some v, r.2.2)
      | none => (s2, some v, [])
    else
      (s1, some v, [])

/-- Outcome of a full `Throttler` burst scenario: the factories physically
invoked in order, the value the first caller's future settled with, the
value the shared queued future settled with, and the futures handed to the
callers that queued while the first task was active. -/
structure ThrottlerOutcome (α β : Type) where
  invoked : List α
  activeResult : Option β
  queuedResult : Option β
  queuedFutures : List ThrottlerFuture

/-- One `queue` call inside a burst, accumulating the futures handed out and
the factories invoked. -/
def Throttler.queueStep (val : α → β)
    (acc : Throttler α β × List ThrottlerFuture × List α) (f : α) :
    Throttler α β × List ThrottlerFuture × List α :=
  let r := Throttler.queue val acc.1 f
  (r.1, acc.2.1 ++ [r.2.1], acc.2.2 ++ r.2.2)

/-- A full `Throttler` scenario: `queue f0` starts a task; every factory of
`qs` is queued while that task is active; the active task then settles, which
triggers the coalesced follow-up run; that run then settles, settling the
shared queued future with its value. -/
def Throttler.scenario (val : α → β) (f0 : α) (qs : List α) :
    ThrottlerOutcome α β :=
  let r1 := Throttler.queue val {} f0
  let r2 := qs.foldl (Throttler.queueStep val)
    (r1.1, ([] : List ThrottlerFuture), r1.2.2)
  let r3 := Throttler.completeActive val r2.1
  let r4 := Throttler.completeActive val r3.1
  { invoked := r2.2.2 ++ r3.2.2 ++ r4.2.2
    activeResult := r3.2.1
    queuedResult := r4.2.1
    queuedFutures := r2.2.1 }

/-- Bookkeeping state of a `Delayer` (`async.ts`).  Timers and the shared
completion promise are identified by generation numbers so that cancelling
and re-arming are observable: `timeout = some g` means the timer with id `g`
is armed, `completionPromise = some c` means the shared future with id `c`
exists for the current debounce cycle; `task` holds the latest factory. -/
structure Delayer (α : Type) where
  timeout : Option Nat := none
  completionPromise : Option Nat := none
  task : Option α := none
  timerGen : Nat := 0
  promiseGen : Nat := 0
  deriving DecidableEq, Repr

/-- `Delayer.trigger`, translated from `async.ts`: store the task as latest,
cancel any pending timer (`cancelTimeout`), create the shared completion
promise if this cycle has none yet, and arm a fresh timer.  Returns the new
state, the id of the completion future handed to this caller, and the id of
the timer this call disarmed (if one was armed). -/
def Delayer.trigger (s : Delayer α) (f : α) : Delayer α × Nat × Option Nat :=
  let s1 := { s with task := some f }
  let cancelled := s1.timeout
  let s2 := { s1 with timeout := none }
  let s3 :=
    match s2.completionPromise with
    | some _ => s2
    | none =>
      { s2 with
        completionPromise := some (s2.promiseGen + 1)
        promiseGen := s2.promiseGen + 1 }
  let s4 := { s3 with timeout := some (s3.timerGen + 1), timerGen := s3.timerGen + 1 }
  (s4, s4.completionPromise.getD 0, cancelled)

/-- The armed timer of a `Delayer` firing, translated from `async.ts`: the
timeout handler clears the handle and calls `doResolve`, whose `then`
continuation clears the cycle state and invokes the recorded latest task.
Returns the new state and the factory invoked (if any); a disarmed timer
never fires. -/
def Delayer.fire (s : Delayer α) : Delayer α × Option α :=
  match s.timeout with
  | none => (s, none)
  | some _ =>
    let s1 := { s with timeout := none }
    match s1.completionPromise with
    | none => (s1, none)
    | some _ =>
      let s2 := { s1 with completionPromise := none }
      match s2.task with
      | some t => ({ s2 with task := none }, some t)
      | none => (s2, none)

/-- One `trigger` call inside a burst, accumulating the completion-future
ids handed out and the timers disarmed. -/
def Delayer.triggerStep (acc : Delayer α × List Nat × List (Option Nat))
    (f : α) : Delayer α × List Nat × List (Option Nat) :=
  let t := Delayer.trigger acc.1 f
  (t.1, acc.2.1 ++ [t.2.1], acc.2.2 ++ [t.2.2])

/-- A full `Delayer` debounce scenario: every factory of `fs` is triggered
before the previously armed timer fires; then the (single surviving) timer
fires.  Returns the final state, the completion-future ids handed to the
callers (in call order), the timer each call disarmed (in call order), and
the factory invoked by the firing. -/
def Delayer.scenario (fs : List α) :
    Delayer α × List Nat × List (Option Nat) × Option α :=
  let r := fs.foldl Delayer.triggerStep
    (({} : Delayer α), ([] : List Nat), ([] : List (Option Nat)))
  let fr := Delayer.fire r.1
  (fr.1, r.2.1, r.2.2, fr.2)

end Async

/-- State of a `Lazy` cell (`lazy.ts`): whether the executor ran, the cached
value and the cached error.  The executor itself (`this.executor`) is passed
to `getValue` as an argument; it either returns a value or throws an error,
modelled by `Except ε α`.  Thrown errors are error instances, hence truthy,
so `if (this._error)` is the `isSome` test on the cached error. -/
structure Lazy (ε α : Type) where
  didRun : Bool := false
  value : Option α := none
  error : Option ε := none
  deriving DecidableEq, Repr

/-- `Lazy.getValue`, translated from `lazy.ts`: when the executor has not
run, run it, caching its value or its thrown error, and set `_didRun`
(the `try`/`catch`/`finally` block); then re-throw the cached error if
present, else return the cached value (`this._value!`).  Returns the
outcome, the new state and the number of executor invocations this call
made. -/
def Lazy.getValue [Inhabited α] (executor : Except ε α) (s : Lazy ε α) :
    Except ε α × Lazy ε α × Nat :=
  let r :=
    if s.didRun then (s, 0)
    else
      match executor with
      | .ok v => ({ s with value := some v, didRun := true }, 1)
      | .error e => ({ s with error := some e, didRun := true }, 1)
  match r.1.error with
  | some e => (.error e, r.1, r.2)
  | none => (.ok (r.1.value.getD default), r.1, r.2)

/-- State of an `IdleValue` (`async.ts`): the cached outcome plus the idle
callback handle (`_handle`), which may have been disposed and may already
have fired.  As in `Lazy`, the raw executor is passed as an argument. -/
structure IdleValue (ε α : Type) where
  didRun : Bool := false
  value : Option α := none
  error : Option ε := none
  handleDisposed : Bool := false
  handleFired : Bool := false
  deriving DecidableEq, Repr

/-- The wrapped `_executor` of `IdleValue`, translated from `async.ts`: run
the raw executor, caching its value or its thrown error and setting
`_didRun` (the `try`/`catch`/`finally` block). -/
def IdleValue.runExecutor (executor : Except ε α) (s : IdleValue ε α) :
    IdleValue ε α :=
  match executor with
  | .ok v => { s with value := some v, didRun := true }
  | .error e => { s with error := some e, didRun := true }

/-- The opportunistic idle callback (`runWhenIdle(() => this._executor())`)
firing: it runs the wrapped executor unless the handle was disposed, and a
handle fires at most once.  Returns the new state and the number of executor
invocations. -/
def IdleValue.idleFire (executor : Except ε α) (s : IdleValue ε α) :
    IdleValue ε α × Nat :=
  if s.handleDisposed || s.handleFired then (s, 0)
  else (IdleValue.runExecutor executor { s with handleFired := true }, 1)

/-- The `value` getter of `IdleValue`, translated from `async.ts`: if the
executor has not run, dispose the idle handle and run it synchronously now;
then re-throw a cached error or return the cached value (`this._value!`).
Returns the outcome, the new state and the number of executor invocations
this call made. -/
def IdleValue.getValue [Inhabited α] (executor : Except ε α)
    (s : IdleValue ε α) : Except ε α × IdleValue ε α × Nat :=
  let r :=
    if s.didRun then (s, 0)
    else (IdleValue.runExecutor executor { s with handleDisposed := true }, 1)
  match r.1.error with
  | some e => (.error e, r.1, r.2)
  | none => (.ok (r.1.value.getD default), r.1, r.2)

/-- The state of an `IdleValue` whose executor has run with outcome
`executor`: the outcome is cached, and the idle handle can no longer fire
(it was either disposed by a forced access or has already fired). -/
def IdleValue.cached (executor : Except ε α) (s : IdleValue ε α) : Prop :=
  s.didRun = true ∧
  (s.handleDisposed = true ∨ s.handleFired = true) ∧
  ((∃ v, executor = .ok v ∧ s.value = some v ∧ s.error = none) ∨
    (∃ e, executor = .error e ∧ s.error = some e))

/-- An observable event in the life of an `IdleValue`: an access through the
`value` getter, or the browser granting the opportunistic idle slot. -/
inductive IdleEvent where
  | access
  | idle
  deriving DecidableEq, Repr

/-- One `IdleValue` event step, accumulating the total number of executor
invocations and the outcome observed by each access, in order. -/
def IdleValue.stepEvent [Inhabited α] (executor : Except ε α)
    (acc : IdleValue ε α × Nat × List (Except ε α)) (ev : IdleEvent) :
    IdleValue ε α × Nat × List (Except ε α) :=
  match ev with
  | .access =>
    let r := IdleValue.getValue executor acc.1
    (r.2.1, acc.2.1 + r.2.2, acc.2.2 ++ [r.1])
  | .idle =>
    let r := IdleValue.idleFire executor acc.1
    (r.1, acc.2.1 + r.2, acc.2.2)

/-- Run a sequence of `IdleValue` events from a fresh instance. -/
def IdleValue.runEvents [Inhabited α] (executor : Except ε α)
    (evs : List IdleEvent) : IdleValue ε α × Nat × List (Except ε α) :=
  evs.foldl (IdleValue.stepEvent executor) (({} : IdleValue ε α), 0, [])

deriving instance DecidableEq for Except

/-- The error kinds a future wrapped by `createCancelablePromise` can settle
with: the distinguished `canceled()` error, or the underlying factory's own
failure, preserved unchanged. -/
inductive CancelErr (ε : Type) where
  | canceled
  | underlying (e : ε)
  deriving DecidableEq, Repr

/-- State of one `createCancelablePromise` instance (`async.ts`): whether
the owned source's token was cancelled, the settlement of the exposed
promise (`none` while pending; a promise settles at most once, first
settlement wins), and how many times `source.dispose()` ran. -/
structure CancelablePromise (ε α : Type) where
  tokenCancelled : Bool := false
  exposed : Option (Except (CancelErr ε) α) := none
  disposeCount : Nat := 0
  deriving DecidableEq, Repr

/-- Settling the exposed promise: a `resolve`/`reject` call on an already
settled promise is a no-op (first settlement wins). -/
def CancelablePromise.settleWith (o : Except (CancelErr ε) α)
    (s : CancelablePromise ε α) : CancelablePromise ε α :=
  match s.exposed with
  | some _ => s
  | none => { s with exposed := some o }

/-- An event observable by a `createCancelablePromise` wrapper: a `cancel()`
call, or the settlement of the underlying factory's thenable. -/
inductive CPEvent (ε α : Type) where
  | cancel
  | settle (o : Except ε α)
  deriving DecidableEq, Repr

/-- One event step of `createCancelablePromise`, translated from `async.ts`:
`cancel()` calls `source.cancel()`, whose once-only cancellation broadcast
runs the registered listener `() => reject(canceled())`; settlement of the
underlying thenable runs `source.dispose()` and then resolves the exposed
promise with the value, or rejects it with the underlying error. -/
def CancelablePromise.step (s : CancelablePromise ε α) :
    CPEvent ε α → CancelablePromise ε α
  | .cancel =>
    if s.tokenCancelled then s
    else CancelablePromise.settleWith (.error .canceled)
      { s with tokenCancelled := true }
  | .settle o =>
    let s1 := { s with disposeCount := s.disposeCount + 1 }
    match o with
    | .ok v => CancelablePromise.settleWith (.ok v) s1
    | .error e => CancelablePromise.settleWith (.error (.underlying e)) s1

/-- Run a sequence of events against a fresh `createCancelablePromise`. -/
def CancelablePromise.run (evs : List (CPEvent ε α)) : CancelablePromise ε α :=
  evs.foldl CancelablePromise.step {}

namespace OutlineModel

/-- Association-list lookup for the `_requests` map (keys are `Nat`). -/
def alookup (m : List (Nat × Nat)) (k : Nat) : Option Nat :=
  match m with
  | [] => none
  | p :: rest => if p.1 = k then some p.2 else alookup rest k

/-- `Map.delete` on the `_requests` map. -/
def eraseKey (m : List (Nat × Nat)) (k : Nat) : List (Nat × Nat) :=
  m.filter fun p => p.1 != k

/-- One `_requests` cache entry of `OutlineModel` (`outlineModel.ts`):
the reference count `promiseCnt`, how many times `source.cancel()` was
called on its stored cancellation source, the resolved model (if any,
models are identified by `Nat`), the key the entry was created under
(captured by the listener closures), and the callers attached to its
`_create` promise, in attachment order. -/
structure RequestData where
  promiseCnt : Int := 0
  cancelCount : Nat := 0
  model : Option Nat := none
  key : Nat := 0
  attached : List Nat := []
  deriving DecidableEq, Repr

/-- Global state of `OutlineModel.create`: the entry heap (entries are
identified by allocation index, mirroring the JS object identity the
listener closures capture), the `_requests` map from key to entry id, the
cancellation listeners in registration order (token, entry id), the tokens
already cancelled, the number of `_create` invocations, and the settled
caller futures (caller id, outcome).  The LRU trimming of `_requests`
(capacity 9) is not modelled; it is unreachable in the single-key scenarios
below. -/
structure Cache where
  heap : List RequestData := []
  requests : List (Nat × Nat) := []
  listeners : List (Nat × Nat) := []
  cancelledTokens : List Nat := []
  createCount : Nat := 0
  results : List (Nat × Except Unit Nat) := []
  deriving DecidableEq, Repr

/-- The entry a given id denotes (a fresh default entry if out of range;
never hit by the operations below). -/
def Cache.entry (st : Cache) (eid : Nat) : RequestData :=
  (st.heap.get? eid).getD {}

/-- The body of the `token.onCancellationRequested` listener registered by
`create`, translated from `outlineModel.ts`: decrement the captured entry's
reference count; when it reaches zero, call `cancel()` on the entry's
stored source and delete the captured key from `_requests`. -/
def Cache.listenerFire (st : Cache) (eid : Nat) : Cache :=
  let d := st.entry eid
  let d1 := { d with promiseCnt := d.promiseCnt - 1 }
  if d1.promiseCnt = 0 then
    { st with
      heap := st.heap.set eid { d1 with cancelCount := d1.cancelCount + 1 }
      requests := eraseKey st.requests d.key }
  else
    { st with heap := st.heap.set eid d1 }

/-- What a `create` call handed its caller: the cached resolved model, or a
future attached to the entry's in-flight `_create` promise. -/
inductive CreateResult where
  | cached (m : Nat)
  | pending
  deriving DecidableEq, Repr

/-- `OutlineModel.create`, translated from `outlineModel.ts`: look the key
up in `_requests`; when absent, allocate a `CancellationTokenSource`, start
`_create` (counted by `createCount`) and store the fresh entry.  When the
entry's model is already resolved, return it directly.  Otherwise increment
the reference count, register the cancellation listener on the caller's
token (a listener registered on an already cancelled token fires
immediately), and attach the caller to the entry's promise. -/
def Cache.create (st : Cache) (key tok caller : Nat) : Cache × CreateResult :=
  let r :=
    match alookup st.requests key with
    | some eid => (st, eid)
    | none =>
      let eid := st.heap.length
      ({ st with
          heap := st.heap ++ [({ key := key } : RequestData)]
          requests := (key, eid) :: st.requests
          createCount := st.createCount + 1 }, eid)
  let st1 := r.1
  let eid := r.2
  let d := st1.entry eid
  match d.model with
  | some m =>
    ({ st1 with results := st1.results ++ [(caller, Except.ok m)] }, .cached m)
  | none =>
    let st2 :=
      { st1 with heap := st1.heap.set eid { d with promiseCnt := d.promiseCnt + 1 } }
    let st3 := { st2 with listeners := st2.listeners ++ [(tok, eid)] }
    let st4 :=
      if tok ∈ st3.cancelledTokens then Cache.listenerFire st3 eid else st3
    let d4 := st4.entry eid
    ({ st4 with heap := st4.heap.set eid { d4 with attached := d4.attached ++ [caller] } },
      .pending)

/-- Cancellation of a caller's token: a token's cancellation broadcast fires
at most once; it fires the listeners registered for this token in
registration order. -/
def Cache.cancelToken (st : Cache) (tok : Nat) : Cache :=
  if tok ∈ st.cancelledTokens then st
  else
    let st1 := { st with cancelledTokens := tok :: st.cancelledTokens }
    (st1.listeners.filter fun p => p.1 == tok).foldl
      (fun s p => Cache.listenerFire s p.2) st1

/-- Settlement of an entry's `_create` promise with a model, translated
from `outlineModel.ts`: each attached caller's continuation stores the
model on the entry (`data.model = model`) and resolves that caller with
it. -/
def Cache.resolveEntry (st : Cache) (eid : Nat) (m : Nat) : Cache :=
  let d := st.entry eid
  if d.attached.isEmpty then st
  else
    { st with
      heap := st.heap.set eid { d with model := some m, attached := [] }
      results := st.results ++ d.attached.map fun c => (c, Except.ok m) }

/-- The retry decision of `OutlineModel._create`, translated from
`outlineModel.ts`.  Attempt `n` runs the document-symbol providers (one
physical invocation of the underlying start).  The internal source `cts` is
a child of the external token, and the provider-registry-change listener
cancels `cts` when the provider set changed during the attempt
(`registryChanged n`).  After `Promise.all`, when
`cts.token.isCancellationRequested && !token.isCancellationRequested` —
i.e. when `registryChanged n` fired while the external token was not
cancelled (`externalCancelled n = false`) — `_create` recurses, so the
whole procedure runs again.  `fuel` bounds the recursion of the model only;
it is irrelevant whenever it exceeds the number of consecutive retries.
Returns the number of physical invocations of the underlying start. -/
def createInvocations (registryChanged externalCancelled : Nat → Bool) :
    Nat → Nat → Nat
  | 0, _ => 0
  | fuel + 1, n =>
    1 +
      (if registryChanged n && !externalCancelled n then
        createInvocations registryChanged externalCancelled fuel (n + 1)
      else 0)

end OutlineModel

/-! ## Theorems -/

/-- Claim C8: `first` runs the factories sequentially, resolves with the
first result satisfying the predicate — invoking exactly the factories up
to and including the satisfying one, so factories after a match are never
invoked — and, when no result satisfies the predicate, resolves with the
fallback value after invoking every factory.  (Strict sequencing is
structural: the embedding invokes each factory only inside the continuation
of the previous one.) -/
theorem first_stops_at_first_match (p : α → Bool) (d : Option α) :
    (∀ pre x post, (∀ y ∈ pre, p y = false) → p x = true →
      Async.first (pre ++ x :: post) p d = (some x, pre ++ [x])) ∧
    (∀ l, (∀ y ∈ l, p y = false) → Async.first l p d = (d, l)) := by
  constructor
  · intro pre x post hpre hx
    induction pre with
    | nil => simp [Async.first, hx]
    | cons a rest ih =>
      have ha : p a = false := hpre a (by simp)
      have hrest : ∀ y ∈ rest, p y = false := fun y hy => hpre y (by simp [hy])
      simp [Async.first, ha, ih hrest]
  · intro l hl
    induction l with
    | nil => simp [Async.first]
    | cons a rest ih =>
      have ha : p a = false := hl a (by simp)
      have hrest : ∀ y ∈ rest, p y = false := fun y hy => hl y (by simp [hy])
      simp [Async.first, ha, ih hrest]

/-- Witness for C8 at the spec's example: `first [0, 5, 9]` with predicate
`x > 3` resolves with `5` and invokes only the first two factories. -/
theorem first_stops_at_first_match_witness :
    Async.first ([0] ++ 5 :: [9]) (fun x => decide (x > 3)) (none : Option Nat) =
      (some 5, [0] ++ [5]) :=
  (first_stops_at_first_match (fun x => decide (x > 3)) none).1 [0] 5 [9]
    (by decide) (by decide)

/-- Folding the `settled` rejection handler from a truthy `firstError` never
changes it: `if (!firstError)` fails for every later settlement. -/
theorem foldl_settledHandler_truthy (promises : List (Except JSVal α))
    (order : List Nat) (fe : JSVal) (hfe : fe.truthy = true) :
    order.foldl (Async.Promises.settledHandler promises) fe = fe := by
  induction order with
  | nil => rfl
  | cons i rest ih =>
    rw [List.foldl_cons]
    have hstep : Async.Promises.settledHandler promises fe i = fe := by
      cases hp : promises[i]? with
      | none => simp [Async.Promises.settledHandler, hp]
      | some p =>
        cases p with
        | ok v => simp [Async.Promises.settledHandler, hp]
        | error r => simp [Async.Promises.settledHandler, hp, hfe]
    rw [hstep, ih]

/-- When every rejection reason in settlement order is truthy, `firstError`
ends as the first rejection reason in settlement order (or keeps its falsy
initial value when nothing rejects). -/
theorem foldl_settledHandler_truthy_reasons (promises : List (Except JSVal α)) :
    ∀ (order : List Nat) (fe : JSVal),
      (∀ r ∈ Async.Promises.rejectionsInOrder promises order, r.truthy = true) →
      fe.truthy = false →
      order.foldl (Async.Promises.settledHandler promises) fe =
        (Async.Promises.rejectionsInOrder promises order).headD fe := by
  intro order
  induction order with
  | nil => intro fe _ _; simp [Async.Promises.rejectionsInOrder]
  | cons i rest ih =>
    intro fe hall hfe
    rw [List.foldl_cons]
    cases hp : promises[i]? with
    | none =>
      have hrej : Async.Promises.rejectionsInOrder promises (i :: rest) =
          Async.Promises.rejectionsInOrder promises rest := by
        simp [Async.Promises.rejectionsInOrder, List.filterMap_cons, hp]
      have hstep : Async.Promises.settledHandler promises fe i = fe := by
        simp [Async.Promises.settledHandler, hp]
      rw [hrej] at hall ⊢
      rw [hstep]
      exact ih fe hall hfe
    | some p =>
      cases p with
      | ok v =>
        have hrej : Async.Promises.rejectionsInOrder promises (i :: rest) =
            Async.Promises.rejectionsInOrder promises rest := by
          simp [Async.Promises.rejectionsInOrder, List.filterMap_cons, hp]
        have hstep : Async.Promises.settledHandler promises fe i = fe := by
          simp [Async.Promises.settledHandler, hp]
        rw [hrej] at hall ⊢
        rw [hstep]
        exact ih fe hall hfe
      | error r =>
        have hrej : Async.Promises.rejectionsInOrder promises (i :: rest) =
            r :: Async.Promises.rejectionsInOrder promises rest := by
          simp [Async.Promises.rejectionsInOrder, List.filterMap_cons, hp]
        have hr : r.truthy = true := hall r (by rw [hrej]; simp)
        have hstep : Async.Promises.settledHandler promises fe i = r := by
          simp [Async.Promises.settledHandler, hp, hfe]
        rw [hrej]
        rw [hstep, foldl_settledHandler_truthy promises rest r hr]
        simp

/-- When every rejection reason in settlement order is falsy, every
rejection overwrites `firstError`, so it ends as the last rejection reason
in settlement order (or keeps its falsy initial value). -/
theorem foldl_settledHandler_falsy_reasons (promises : List (Except JSVal α)) :
    ∀ (order : List Nat) (fe : JSVal),
      (∀ r ∈ Async.Promises.rejectionsInOrder promises order, r.truthy = false) →
      fe.truthy = false →
      order.foldl (Async.Promises.settledHandler promises) fe =
        (Async.Promises.rejectionsInOrder promises order).getLastD fe := by
  intro order
  induction order with
  | nil => intro fe _ _; simp [Async.Promises.rejectionsInOrder]
  | cons i rest ih =>
    intro fe hall hfe
    rw [List.foldl_cons]
    cases hp : promises[i]? with
    | none =>
      have hrej : Async.Promises.rejectionsInOrder promises (i :: rest) =
          Async.Promises.rejectionsInOrder promises rest := by
        simp [Async.Promises.rejectionsInOrder, List.filterMap_cons, hp]
      have hstep : Async.Promises.settledHandler promises fe i = fe := by
        simp [Async.Promises.settledHandler, hp]
      rw [hrej] at hall ⊢
      rw [hstep]
      exact ih fe hall hfe
    | some p =>
      cases p with
      | ok v =>
        have hrej : Async.Promises.rejectionsInOrder promises (i :: rest) =
            Async.Promises.rejectionsInOrder promises rest := by
          simp [Async.Promises.rejectionsInOrder, List.filterMap_cons, hp]
        have hstep : Async.Promises.settledHandler promises fe i = fe := by
          simp [Async.Promises.settledHandler, hp]
        rw [hrej] at hall ⊢
        rw [hstep]
        exact ih fe hall hfe
      | error r =>
        have hrej : Async.Promises.rejectionsInOrder promises (i :: rest) =
            r :: Async.Promises.rejectionsInOrder promises rest := by
          simp [Async.Promises.rejectionsInOrder, List.filterMap_cons, hp]
        have hr : r.truthy = false := hall r (by rw [hrej]; simp)
        have hall2 : ∀ x ∈ Async.Promises.rejectionsInOrder promises rest,
            x.truthy = false := by
          intro x hx
          exact hall x (by rw [hrej]; simp [hx])
        have hstep : Async.Promises.settledHandler promises fe i = r := by
          simp [Async.Promises.settledHandler, hp, hfe]
        rw [hrej, hstep, ih r hall2 hr, List.getLastD_cons]

/-- Counterexample to claim C3 as stated: with two rejecting inputs whose
settlement order is the reverse of their input order, `settled` rejects
with the error of the first rejecting promise in settlement order
(`err 2`), not with the error of the first rejecting promise in input
order (`err 1`). -/
theorem settled_input_order_counterexample :
    List.Perm [1, 0] (List.range 2) ∧
    Async.Promises.settled (α := Nat)
        [Except.error (JSVal.err 1), Except.error (JSVal.err 2)] [1, 0] =
      Except.error (JSVal.err 2) ∧
    JSVal.err 2 ≠ JSVal.err 1 := by decide

/-- Claim C3 (amended): `settled` awaits every input's settlement and, when
any input rejects (with a truthy reason, as every genuine `Error` instance
is), rejects with the error of the first rejecting promise in settlement
order — not input order; when no input rejects it resolves with all values
in input order. -/
theorem settled_first_error_settlement_order (promises : List (Except JSVal α))
    (order : List Nat) (_hperm : List.Perm order (List.range promises.length))
    (htruthy : ∀ r ∈ Async.Promises.rejectionsInOrder promises order,
      r.truthy = true) :
    Async.Promises.settled promises order =
      match (Async.Promises.rejectionsInOrder promises order).head? with
      | some r => Except.error r
      | none => Except.ok (promises.map fun p =>
          match p with
          | .ok v => some v
          | .error _ => none) := by
  simp only [Async.Promises.settled, Async.Promises.settledFirstError]
  rw [foldl_settledHandler_truthy_reasons promises order JSVal.undefined htruthy rfl]
  cases hrej : Async.Promises.rejectionsInOrder promises order with
  | nil => simp
  | cons r rs =>
    have hr : r.truthy = true := htruthy r (by rw [hrej]; simp)
    have hne : r ≠ JSVal.undefined := by
      intro he
      rw [he] at hr
      exact absurd hr (by decide)
    simp [hne]

/-- Witness for the amended C3 at the spec's example
`settled [ok 1, fail E1, fail E2]` in input settlement order: it rejects
with `E1`, the first error in settlement order. -/
theorem settled_first_error_settlement_order_witness :
    List.Perm [0, 1, 2] (List.range 3) ∧
    (∀ r ∈ Async.Promises.rejectionsInOrder (α := Nat)
        [Except.ok 1, Except.error (JSVal.err 1), Except.error (JSVal.err 2)]
        [0, 1, 2], r.truthy = true) ∧
    Async.Promises.settled (α := Nat)
        [Except.ok 1, Except.error (JSVal.err 1), Except.error (JSVal.err 2)]
        [0, 1, 2] =
      match (Async.Promises.rejectionsInOrder (α := Nat)
          [Except.ok 1, Except.error (JSVal.err 1), Except.error (JSVal.err 2)]
          [0, 1, 2]).head? with
      | some r => Except.error r
      | none => Except.ok ([Except.ok 1, Except.error (JSVal.err 1),
          Except.error (JSVal.err 2)].map fun p =>
            match p with
            | .ok v => some v
            | .error _ => none) :=
  ⟨by decide, by decide,
    settled_first_error_settlement_order _ _ (by decide) (by decide)⟩

/-- Counterexample to claim C9 as stated: a single rejection with the falsy
reason `0` is recorded into `firstError`, and since
`typeof firstError !== 'undefined'` holds for `0`, `settled` rejects with
`0` instead of fulfilling. -/
theorem settled_falsy_counterexample :
    JSVal.truthy (JSVal.num 0) = false ∧
    Async.Promises.settled (α := Nat) [Except.error (JSVal.num 0)] [0] =
      Except.error (JSVal.num 0) := by decide

/-- Claim C9 (amended): a falsy rejection reason is assigned to
`firstError` but does not lock it — any later rejection in settlement order
overwrites it while it is falsy.  When every rejection reason is falsy, the
recorded value is the last falsy reason in settlement order, and `settled`
fulfills (with `undefined` in each rejected input's slot) exactly when that
last reason is the value `undefined`; for any other falsy reason (`null`,
`0`, `false`, the empty string) it rejects with that reason. -/
theorem settled_all_falsy_reasons (promises : List (Except JSVal α))
    (order : List Nat) (_hperm : List.Perm order (List.range promises.length))
    (hfalsy : ∀ r ∈ Async.Promises.rejectionsInOrder promises order,
      r.truthy = false) :
    Async.Promises.settled promises order =
      if (Async.Promises.rejectionsInOrder promises order).getLastD JSVal.undefined
          = JSVal.undefined then
        Except.ok (promises.map fun p =>
          match p with
          | .ok v => some v
          | .error _ => none)
      else
        Except.error
          ((Async.Promises.rejectionsInOrder promises order).getLastD
            JSVal.undefined) := by
  simp only [Async.Promises.settled, Async.Promises.settledFirstError]
  rw [foldl_settledHandler_falsy_reasons promises order JSVal.undefined hfalsy rfl]

/-- Witness for the amended C9: rejections with reasons `null` then `0`, in
input settlement order; the last falsy reason `0` is recorded and `settled`
rejects with it. -/
theorem settled_all_falsy_reasons_witness :
    List.Perm [0, 1] (List.range 2) ∧
    (∀ r ∈ Async.Promises.rejectionsInOrder (α := Nat)
        [Except.error JSVal.null, Except.error (JSVal.num 0)] [0, 1],
      r.truthy = false) ∧
    Async.Promises.settled (α := Nat)
        [Except.error JSVal.null, Except.error (JSVal.num 0)] [0, 1] =
      if (Async.Promises.rejectionsInOrder (α := Nat)
          [Except.error JSVal.null, Except.error (JSVal.num 0)]
          [0, 1]).getLastD JSVal.undefined = JSVal.undefined then
        Except.ok ([Except.error JSVal.null,
            Except.error (JSVal.num 0)].map fun p =>
          match p with
          | .ok v => some v
          | .error _ => none)
      else
        Except.error
          ((Async.Promises.rejectionsInOrder (α := Nat)
              [Except.error JSVal.null, Except.error (JSVal.num 0)]
              [0, 1]).getLastD JSVal.undefined) :=
  ⟨by decide, by decide,
    settled_all_falsy_reasons _ _ (by decide) (by decide)⟩

/-- A `cancel()` on an already cancelled source is a no-op: the cancellation
broadcast fires at most once. -/
theorem CancelablePromise.step_cancel_cancelled (s : CancelablePromise ε α)
    (h : s.tokenCancelled = true) : CancelablePromise.step s .cancel = s := by
  simp [CancelablePromise.step, h]

/-- A run of `cancel()` events leaves a state whose token is already
cancelled unchanged. -/
theorem CancelablePromise.foldl_cancels_cancelled :
    ∀ (l : List (CPEvent ε α)) (s : CancelablePromise ε α),
      (∀ e ∈ l, e = .cancel) → s.tokenCancelled = true →
      l.foldl CancelablePromise.step s = s := by
  intro l
  induction l with
  | nil => intro s _ _; rfl
  | cons e rest ih =>
    intro s hl h
    have he : e = .cancel := hl e (by simp)
    rw [List.foldl_cons, he, CancelablePromise.step_cancel_cancelled s h]
    exact ih s (fun x hx => hl x (by simp [hx])) h

/-- A run of `cancel()` events from the fresh state either does nothing or
reaches the cancelled-and-rejected state. -/
theorem CancelablePromise.foldl_cancels_fresh :
    ∀ l : List (CPEvent ε α), (∀ e ∈ l, e = .cancel) →
      l.foldl CancelablePromise.step ({} : CancelablePromise ε α) =
        ({} : CancelablePromise ε α) ∨
      l.foldl CancelablePromise.step ({} : CancelablePromise ε α) =
        { tokenCancelled := true, exposed := some (.error .canceled) } := by
  intro l
  induction l with
  | nil => intro _; left; rfl
  | cons e rest ih =>
    intro hl
    have he : e = .cancel := hl e (by simp)
    rw [List.foldl_cons, he]
    right
    have h1 : CancelablePromise.step ({} : CancelablePromise ε α) .cancel =
        { tokenCancelled := true, exposed := some (.error .canceled) } := rfl
    rw [h1]
    exact CancelablePromise.foldl_cancels_cancelled rest _
      (fun x hx => hl x (by simp [hx])) rfl

/-- Settlement of the underlying thenable on an already settled wrapper only
disposes the source: `resolve`/`reject` on a settled promise are no-ops. -/
theorem CancelablePromise.step_settle_settled (s : CancelablePromise ε α)
    (x : Except (CancelErr ε) α) (h : s.exposed = some x) (o : Except ε α) :
    CancelablePromise.step s (.settle o) =
      { s with disposeCount := s.disposeCount + 1 } := by
  cases o <;> simp [CancelablePromise.step, CancelablePromise.settleWith, h]

/-- Claim C6: for a `createCancelablePromise` wrapper, a `cancel()` issued
before the underlying thenable settles makes the exposed future reject with
the distinguished `canceled` error — even when the underlying factory later
fails with its own error, because the first settlement wins — and the owned
cancellation source is disposed exactly once, at the underlying thenable's
settlement.  The event trace is any number of cancels, one of which
precedes the single settlement of the underlying thenable. -/
theorem cancelable_promise_cancel_wins (l1 l2 l3 : List (CPEvent ε α))
    (o : Except ε α) (h1 : ∀ e ∈ l1, e = .cancel)
    (h2 : ∀ e ∈ l2, e = .cancel) (h3 : ∀ e ∈ l3, e = .cancel) :
    CancelablePromise.run (l1 ++ .cancel :: (l2 ++ .settle o :: l3)) =
      { tokenCancelled := true, exposed := some (.error .canceled),
        disposeCount := 1 } := by
  unfold CancelablePromise.run
  rw [List.foldl_append, List.foldl_cons]
  have hmid : CancelablePromise.step
      (l1.foldl CancelablePromise.step ({} : CancelablePromise ε α)) .cancel =
      { tokenCancelled := true, exposed := some (.error .canceled) } := by
    rcases CancelablePromise.foldl_cancels_fresh l1 h1 with h | h <;> rw [h]
    · rfl
    · exact CancelablePromise.step_cancel_cancelled _ rfl
  rw [hmid, List.foldl_append, List.foldl_cons,
    CancelablePromise.foldl_cancels_cancelled l2 _ h2 rfl,
    CancelablePromise.step_settle_settled _ (.error .canceled) rfl o]
  exact CancelablePromise.foldl_cancels_cancelled l3 _ h3 rfl

/-- Witness for C6: a single `cancel()` followed by the underlying factory
failing naturally with error `5`; the exposed future settles to `canceled`,
not to the underlying failure, and the source is disposed once. -/
theorem cancelable_promise_cancel_wins_witness :
    (∀ e ∈ ([] : List (CPEvent Nat Nat)), e = .cancel) ∧
    CancelablePromise.run
        (([] : List (CPEvent Nat Nat)) ++ .cancel :: ([] ++ .settle (.error 5) :: [])) =
      { tokenCancelled := true, exposed := some (.error .canceled),
        disposeCount := 1 } :=
  ⟨by decide,
    cancelable_promise_cancel_wins [] [] [] (.error 5)
      (by decide) (by decide) (by decide)⟩

/-- An access on an `IdleValue` whose executor already ran replays the cached
outcome — the same value, or the identical cached error — without invoking
the executor, and leaves the state unchanged. -/
theorem IdleValue.getValue_cached [Inhabited α] {executor : Except ε α}
    {s : IdleValue ε α} (hs : IdleValue.cached executor s) :
    IdleValue.getValue executor s = (executor, s, 0) := by
  obtain ⟨hrun, -, ho⟩ := hs
  rcases ho with ⟨v, he, hv, herr⟩ | ⟨e, he, herr⟩
  · subst he
    simp [IdleValue.getValue, hrun, hv, herr]
  · subst he
    simp [IdleValue.getValue, hrun, herr]

/-- The idle callback cannot fire once the executor ran: the handle was
either disposed by a forced access, or has already fired. -/
theorem IdleValue.idleFire_cached {executor : Except ε α}
    {s : IdleValue ε α} (hs : IdleValue.cached executor s) :
    IdleValue.idleFire executor s = (s, 0) := by
  obtain ⟨-, hh, -⟩ := hs
  rcases hh with h | h <;> simp [IdleValue.idleFire, h]

/-- The first forced access from a fresh `IdleValue` runs the executor
synchronously, observes its outcome, and leaves a cached state. -/
theorem IdleValue.getValue_fresh [Inhabited α] (executor : Except ε α) :
    (IdleValue.getValue executor ({} : IdleValue ε α)).1 = executor ∧
    (IdleValue.getValue executor ({} : IdleValue ε α)).2.2 = 1 ∧
    IdleValue.cached executor
      (IdleValue.getValue executor ({} : IdleValue ε α)).2.1 := by
  cases executor with
  | ok v => exact ⟨rfl, rfl, rfl, Or.inl rfl, Or.inl ⟨v, rfl, rfl, rfl⟩⟩
  | error e => exact ⟨rfl, rfl, rfl, Or.inl rfl, Or.inr ⟨e, rfl, rfl⟩⟩

/-- The opportunistic idle slot firing on a fresh `IdleValue` runs the
executor once and leaves a cached state. -/
theorem IdleValue.idleFire_fresh (executor : Except ε α) :
    (IdleValue.idleFire executor ({} : IdleValue ε α)).2 = 1 ∧
    IdleValue.cached executor
      (IdleValue.idleFire executor ({} : IdleValue ε α)).1 := by
  cases executor with
  | ok v => exact ⟨rfl, rfl, Or.inr rfl, Or.inl ⟨v, rfl, rfl, rfl⟩⟩
  | error e => exact ⟨rfl, rfl, Or.inr rfl, Or.inr ⟨e, rfl, rfl⟩⟩

/-- Once the executor ran, further events never run it again: the state and
the invocation count stay put, and every further access observes the cached
outcome. -/
theorem IdleValue.foldl_cached [Inhabited α] (executor : Except ε α) :
    ∀ (evs : List IdleEvent) (s : IdleValue ε α) (n : Nat)
      (rs : List (Except ε α)), IdleValue.cached executor s →
      evs.foldl (IdleValue.stepEvent executor) (s, n, rs) =
        (s, n, rs ++ List.replicate (evs.count IdleEvent.access) executor) := by
  intro evs
  induction evs with
  | nil => intro s n rs _; simp
  | cons ev rest ih =>
    intro s n rs hs
    rw [List.foldl_cons]
    cases ev with
    | access =>
      have hstep : IdleValue.stepEvent executor (s, n, rs) .access =
          (s, n, rs ++ [executor]) := by
        simp [IdleValue.stepEvent, IdleValue.getValue_cached hs]
      rw [hstep, ih s n (rs ++ [executor]) hs]
      simp [List.count_cons_self, List.replicate_succ, List.append_assoc]
    | idle =>
      have hstep : IdleValue.stepEvent executor (s, n, rs) .idle =
          (s, n, rs) := by
        simp [IdleValue.stepEvent, IdleValue.idleFire_cached hs]
      rw [hstep, ih s n rs hs]
      simp [List.count_cons_of_ne]

/-- Claim C7: across any sequence of `IdleValue` events containing at least
one access, the executor runs exactly once, and every access observes the
single cached outcome (`executor` itself — so a cached failure is re-thrown
as the identical error on every access); and for the analogous `Lazy`, the
first `getValue` runs the executor and yields its outcome, while a second
`getValue` replays the identical outcome with zero further executor runs. -/
theorem idle_value_factory_runs_once [Inhabited α] (executor : Except ε α)
    (evs : List IdleEvent) (h : IdleEvent.access ∈ evs) :
    ((IdleValue.runEvents executor evs).2.1 = 1 ∧
      (IdleValue.runEvents executor evs).2.2 =
        List.replicate (evs.count IdleEvent.access) executor) ∧
    ((Lazy.getValue executor ({} : Lazy ε α)).1 = executor ∧
      (Lazy.getValue executor ({} : Lazy ε α)).2.2 = 1 ∧
      Lazy.getValue executor (Lazy.getValue executor ({} : Lazy ε α)).2.1 =
        (executor, (Lazy.getValue executor ({} : Lazy ε α)).2.1, 0)) := by
  constructor
  · obtain ⟨e, rest, rfl⟩ : ∃ e rest, evs = e :: rest := by
      cases evs with
      | nil => cases h
      | cons e rest => exact ⟨e, rest, rfl⟩
    unfold IdleValue.runEvents
    rw [List.foldl_cons]
    cases e with
    | access =>
      obtain ⟨hout, hcnt, hcach⟩ := IdleValue.getValue_fresh (ε := ε) executor
      have hstep : IdleValue.stepEvent executor
          (({} : IdleValue ε α), 0, ([] : List (Except ε α))) .access =
          ((IdleValue.getValue executor ({} : IdleValue ε α)).2.1, 1,
            [executor]) := by
        simp [IdleValue.stepEvent, hout, hcnt]
      rw [hstep, IdleValue.foldl_cached executor rest _ 1 [executor] hcach]
      refine ⟨rfl, ?_⟩
      simp [List.count_cons_self, List.replicate_succ]
    | idle =>
      obtain ⟨hcnt, hcach⟩ := IdleValue.idleFire_fresh (ε := ε) executor
      have hstep : IdleValue.stepEvent executor
          (({} : IdleValue ε α), 0, ([] : List (Except ε α))) .idle =
          ((IdleValue.idleFire executor ({} : IdleValue ε α)).1, 1,
            ([] : List (Except ε α))) := by
        simp [IdleValue.stepEvent, hcnt]
      rw [hstep, IdleValue.foldl_cached executor rest _ 1 [] hcach]
      refine ⟨rfl, ?_⟩
      simp [List.count_cons_of_ne]
  · cases executor with
    | ok v => exact ⟨rfl, rfl, rfl⟩
    | error e => exact ⟨rfl, rfl, rfl⟩

/-- Witness for C7: a failing executor (error `7`), accessed, granted the
idle slot, then accessed again: one executor run, both accesses observing
the identical error; and the `Lazy` conjuncts at the same executor. -/
theorem idle_value_factory_runs_once_witness :
    IdleEvent.access ∈ [IdleEvent.access, IdleEvent.idle, IdleEvent.access] ∧
    (((IdleValue.runEvents (ε := Nat) (α := Nat) (Except.error 7)
          [IdleEvent.access, IdleEvent.idle, IdleEvent.access]).2.1 = 1 ∧
      (IdleValue.runEvents (ε := Nat) (α := Nat) (Except.error 7)
          [IdleEvent.access, IdleEvent.idle, IdleEvent.access]).2.2 =
        List.replicate ([IdleEvent.access, IdleEvent.idle,
          IdleEvent.access].count IdleEvent.access) (Except.error 7)) ∧
    ((Lazy.getValue (Except.error 7) ({} : Lazy Nat Nat)).1 = Except.error 7 ∧
      (Lazy.getValue (Except.error 7) ({} : Lazy Nat Nat)).2.2 = 1 ∧
      Lazy.getValue (Except.error 7)
          (Lazy.getValue (Except.error 7) ({} : Lazy Nat Nat)).2.1 =
        (Except.error 7,
          (Lazy.getValue (Except.error 7) ({} : Lazy Nat Nat)).2.1, 0))) :=
  ⟨by decide,
    idle_value_factory_runs_once (Except.error 7)
      [IdleEvent.access, IdleEvent.idle, IdleEvent.access] (by decide)⟩

/-- Queuing a burst of factories while a task is active: no factory is
invoked, every caller receives the shared queued future, and only the most
recently queued factory remains stored. -/
theorem Throttler.foldl_queued (val : α → β) :
    ∀ (qs : List α) (x : β) (f : α) (futs : List Async.ThrottlerFuture)
      (invs : List α),
      qs.foldl (Async.Throttler.queueStep val)
        (({ activePromise := some x, queuedPromiseFactory := some f,
            queuedPromise := true } : Async.Throttler α β), futs, invs) =
      (({ activePromise := some x, queuedPromiseFactory := some (qs.getLastD f),
          queuedPromise := true } : Async.Throttler α β),
        futs ++ List.replicate qs.length .queued, invs) := by
  intro qs
  induction qs with
  | nil => intro x f futs invs; simp
  | cons q rest ih =>
    intro x f futs invs
    rw [List.foldl_cons]
    have hstep : Async.Throttler.queueStep val
        (({ activePromise := some x, queuedPromiseFactory := some f,
            queuedPromise := true } : Async.Throttler α β), futs, invs) q =
        (({ activePromise := some x, queuedPromiseFactory := some q,
            queuedPromise := true } : Async.Throttler α β),
          futs ++ [.queued], invs ++ []) := rfl
    rw [hstep, ih x q (futs ++ [Async.ThrottlerFuture.queued]) (invs ++ [])]
    simp [List.getLastD_cons, List.getLast?_cons, List.replicate_succ,
      List.append_assoc]

/-- Claim C1: with one task active and `N ≥ 1` factories queued while it is
active, exactly two physical factory invocations occur in total — the
already active one and one coalesced follow-up run; the follow-up run
invokes the most recently queued factory; and all `N` queued callers share
the queued future, which settles with the result of that single coalesced
run. -/
theorem throttler_coalesces_burst (val : α → β) (f0 : α) (qs : List α)
    (h : qs ≠ []) :
    (Async.Throttler.scenario val f0 qs).invoked = [f0, qs.getLastD f0] ∧
    (Async.Throttler.scenario val f0 qs).invoked.length = 2 ∧
    (Async.Throttler.scenario val f0 qs).activeResult = some (val f0) ∧
    (Async.Throttler.scenario val f0 qs).queuedResult =
      some (val (qs.getLastD f0)) ∧
    (Async.Throttler.scenario val f0 qs).queuedFutures =
      List.replicate qs.length .queued := by
  obtain ⟨q, rest, rfl⟩ := List.exists_cons_of_ne_nil h
  simp only [Async.Throttler.scenario]
  rw [List.foldl_cons]
  have hstep : Async.Throttler.queueStep val
      ((Async.Throttler.queue val ({} : Async.Throttler α β) f0).1,
        ([] : List Async.ThrottlerFuture),
        (Async.Throttler.queue val ({} : Async.Throttler α β) f0).2.2) q =
      (({ activePromise := some (val f0), queuedPromiseFactory := some q,
          queuedPromise := true } : Async.Throttler α β),
        [.queued], [f0]) := rfl
  rw [hstep, Throttler.foldl_queued val rest (val f0) q [.queued] [f0]]
  have hcomplete : Async.Throttler.completeActive val
      ({ activePromise := some (val f0),
          queuedPromiseFactory := some (rest.getLastD q),
          queuedPromise := true } : Async.Throttler α β) =
      (({ activePromise := some (val (rest.getLastD q)),
          queuedPromiseFactory := none,
          queuedPromise := false } : Async.Throttler α β),
        some (val f0), [rest.getLastD q]) := rfl
  rw [hcomplete]
  have hcomplete2 : Async.Throttler.completeActive val
      ({ activePromise := some (val (rest.getLastD q)),
          queuedPromiseFactory := none,
          queuedPromise := false } : Async.Throttler α β) =
      (({} : Async.Throttler α β), some (val (rest.getLastD q)), []) := rfl
  rw [hcomplete2]
  refine ⟨?_, ?_, rfl, ?_, ?_⟩
  · simp [List.getLastD_cons, List.getLast?_cons]
  · simp
  · simp [List.getLastD_cons, List.getLast?_cons]
  · simp [List.replicate_succ]

/-- Witness for C1: a task from factory `1` active, factories `2` then `3`
queued during it; runs are `1` and `3` only, and both queued callers settle
with the coalesced run's result. -/
theorem throttler_coalesces_burst_witness :
    ([2, 3] : List Nat) ≠ [] ∧
    ((Async.Throttler.scenario (fun n : Nat => n * 10) 1 [2, 3]).invoked =
        [1, [2, 3].getLastD 1] ∧
      (Async.Throttler.scenario (fun n : Nat => n * 10) 1 [2, 3]).invoked.length = 2 ∧
      (Async.Throttler.scenario (fun n : Nat => n * 10) 1 [2, 3]).activeResult =
        some ((fun n : Nat => n * 10) 1) ∧
      (Async.Throttler.scenario (fun n : Nat => n * 10) 1 [2, 3]).queuedResult =
        some ((fun n : Nat => n * 10) ([2, 3].getLastD 1)) ∧
      (Async.Throttler.scenario (fun n : Nat => n * 10) 1 [2, 3]).queuedFutures =
        List.replicate ([2, 3] : List Nat).length .queued) :=
  ⟨by decide, throttler_coalesces_burst (fun n : Nat => n * 10) 1 [2, 3] (by decide)⟩

/-- Triggering a burst of factories mid-cycle: each trigger disarms the
previously armed timer and arms a fresh one, every caller receives the
cycle's single shared completion future (id `1`), and only the last factory
submitted remains recorded. -/
theorem Delayer.foldl_midcycle :
    ∀ (fs : List α) (k : Nat) (t : α) (futs : List Nat)
      (cans : List (Option Nat)),
      fs.foldl Async.Delayer.triggerStep
        (({ timeout := some k, completionPromise := some 1, task := some t,
            timerGen := k, promiseGen := 1 } : Async.Delayer α), futs, cans) =
      (({ timeout := some (k + fs.length), completionPromise := some 1,
          task := some (fs.getLastD t), timerGen := k + fs.length,
          promiseGen := 1 } : Async.Delayer α),
        futs ++ List.replicate fs.length 1,
        cans ++ (List.range fs.length).map (fun i => some (k + i))) := by
  intro fs
  induction fs with
  | nil => intro k t futs cans; simp
  | cons f rest ih =>
    intro k t futs cans
    rw [List.foldl_cons]
    have hstep : Async.Delayer.triggerStep
        (({ timeout := some k, completionPromise := some 1, task := some t,
            timerGen := k, promiseGen := 1 } : Async.Delayer α), futs, cans) f =
        (({ timeout := some (k + 1), completionPromise := some 1,
            task := some f, timerGen := k + 1, promiseGen := 1 } :
              Async.Delayer α),
          futs ++ [1], cans ++ [some k]) := rfl
    rw [hstep, ih (k + 1) f (futs ++ [1]) (cans ++ [some k])]
    simp only [Prod.mk.injEq]
    refine ⟨?_, ?_, ?_⟩
    · simp only [Async.Delayer.mk.injEq, List.length_cons, List.getLastD_cons,
        Option.some.injEq, and_true, true_and]
      omega
    · simp [List.replicate_succ, List.append_assoc]
    · have hfun : ∀ a : Nat, (some (k + 1 + a) : Option Nat) =
          some (k + Nat.succ a) := by
        intro a
        congr 1
        omega
      simp only [List.length_cons, List.range_succ_eq_map, List.map_cons,
        List.map_map, List.append_assoc, Nat.add_zero, List.singleton_append,
        Function.comp]
      exact congrArg (cans ++ some k :: ·) (List.map_congr_left fun a _ => hfun a)

/-- Claim C5: for a burst of `trigger` calls each arriving before the armed
timer fires, exactly one physical factory invocation occurs for the whole
sequence — the last factory submitted, invoked when the single surviving
timer fires; every trigger disarms the previously armed timer (`none` for
the first call, timer `i` for call `i + 1`) and arms a new one; and all
callers receive the cycle's one shared completion future (id `1`). -/
theorem delayer_debounce_coalesces (fs : List α) (h : fs ≠ []) :
    (Async.Delayer.scenario fs).2.2.2 = fs.getLast? ∧
    (Async.Delayer.scenario fs).2.1 = List.replicate fs.length 1 ∧
    (Async.Delayer.scenario fs).2.2.1 =
      (List.range fs.length).map (fun i => if i = 0 then none else some i) ∧
    (Async.Delayer.scenario fs).1.timeout = none ∧
    (Async.Delayer.scenario fs).1.task = none := by
  obtain ⟨f, rest, rfl⟩ := List.exists_cons_of_ne_nil h
  simp only [Async.Delayer.scenario]
  rw [List.foldl_cons]
  have hstep : Async.Delayer.triggerStep
      ((({} : Async.Delayer α), ([] : List Nat), ([] : List (Option Nat)))) f =
      (({ timeout := some 1, completionPromise := some 1, task := some f,
          timerGen := 1, promiseGen := 1 } : Async.Delayer α),
        [1], [none]) := rfl
  rw [hstep, Delayer.foldl_midcycle rest 1 f [1] [none]]
  have hfire : Async.Delayer.fire
      ({ timeout := some (1 + rest.length), completionPromise := some 1,
          task := some (rest.getLastD f), timerGen := 1 + rest.length,
          promiseGen := 1 } : Async.Delayer α) =
      (({ timeout := none, completionPromise := none, task := none,
          timerGen := 1 + rest.length, promiseGen := 1 } : Async.Delayer α),
        some (rest.getLastD f)) := rfl
  rw [hfire]
  refine ⟨?_, ?_, ?_, rfl, rfl⟩
  · simp [List.getLastD_cons, List.getLast?_cons]
  · simp [List.replicate_succ]
  · have hmap : (List.range rest.length).map (fun i => some (1 + i)) =
        (List.range rest.length).map
          (fun i => if Nat.succ i = 0 then none else some (Nat.succ i)) := by
      refine List.map_congr_left fun a _ => ?_
      have h1 : (1 : Nat) + a = Nat.succ a := by omega
      simp [h1]
    simp [List.range_succ_eq_map, List.map_map, Function.comp, hmap]

/-- Witness for C5: factories `7`, `8`, `9` triggered inside one debounce
window; only `9` runs, every caller shares future `1`, and each later
trigger disarmed the timer its predecessor armed. -/
theorem delayer_debounce_coalesces_witness :
    ([7, 8, 9] : List Nat) ≠ [] ∧
    ((Async.Delayer.scenario ([7, 8, 9] : List Nat)).2.2.2 = [7, 8, 9].getLast? ∧
      (Async.Delayer.scenario ([7, 8, 9] : List Nat)).2.1 =
        List.replicate ([7, 8, 9] : List Nat).length 1 ∧
      (Async.Delayer.scenario ([7, 8, 9] : List Nat)).2.2.1 =
        (List.range ([7, 8, 9] : List Nat).length).map
          (fun i => if i = 0 then none else some i) ∧
      (Async.Delayer.scenario ([7, 8, 9] : List Nat)).1.timeout = none ∧
      (Async.Delayer.scenario ([7, 8, 9] : List Nat)).1.task = none) :=
  ⟨by decide, delayer_debounce_coalesces [7, 8, 9] (by decide)⟩

/-- Claim C2: in `OutlineModel.create`, two callers acquiring the same key
before the underlying `_create` resolves share exactly one `_create`
invocation (both are attached to the one entry, whose reference count is 2);
when both callers' tokens are cancelled before resolution — in either order —
the stored cancellation source is cancelled exactly once and the entry is
evicted from `_requests`; and a later acquire for the same key afterwards
starts a fresh `_create` (a second physical invocation). -/
theorem outline_cache_single_flight :
    ∀ b : Bool,
      (OutlineModel.Cache.create
          ((OutlineModel.Cache.create {} 7 1 101).1) 7 2 102).1.createCount = 1 ∧
      ((OutlineModel.Cache.create
          ((OutlineModel.Cache.create {} 7 1 101).1) 7 2 102).1.entry 0).promiseCnt = 2 ∧
      ((OutlineModel.Cache.create
          ((OutlineModel.Cache.create {} 7 1 101).1) 7 2 102).1.entry 0).attached =
        [101, 102] ∧
      ((OutlineModel.Cache.cancelToken
          (OutlineModel.Cache.cancelToken
            ((OutlineModel.Cache.create
              ((OutlineModel.Cache.create {} 7 1 101).1) 7 2 102).1)
            (if b then 1 else 2))
          (if b then 2 else 1)).entry 0).cancelCount = 1 ∧
      OutlineModel.alookup
        (OutlineModel.Cache.cancelToken
          (OutlineModel.Cache.cancelToken
            ((OutlineModel.Cache.create
              ((OutlineModel.Cache.create {} 7 1 101).1) 7 2 102).1)
            (if b then 1 else 2))
          (if b then 2 else 1)).requests 7 = none ∧
      (OutlineModel.Cache.create
        (OutlineModel.Cache.cancelToken
          (OutlineModel.Cache.cancelToken
            ((OutlineModel.Cache.create
              ((OutlineModel.Cache.create {} 7 1 101).1) 7 2 102).1)
            (if b then 1 else 2))
          (if b then 2 else 1)) 7 3 103).1.createCount = 2 := by
  intro b
  cases b <;> decide

/-- Claim C10: a `create` call that finds the entry's model already resolved
is served the cached model and changes nothing but the settled results — in
particular it neither increments the reference count nor registers a
cancellation listener — and subsequently cancelling that caller's (fresh)
token leaves the heap (hence every stored source) and the `_requests` map
untouched: no cancellation and no eviction. -/
theorem outline_cached_entry_no_listener (st : OutlineModel.Cache)
    (key tok caller eid m : Nat)
    (h1 : OutlineModel.alookup st.requests key = some eid)
    (h2 : (st.entry eid).model = some m)
    (h3 : ∀ p ∈ st.listeners, p.1 ≠ tok) :
    OutlineModel.Cache.create st key tok caller =
      ({ st with results := st.results ++ [(caller, Except.ok m)] },
        .cached m) ∧
    (OutlineModel.Cache.cancelToken
        (OutlineModel.Cache.create st key tok caller).1 tok).heap = st.heap ∧
    (OutlineModel.Cache.cancelToken
        (OutlineModel.Cache.create st key tok caller).1 tok).requests =
      st.requests := by
  have hcreate : OutlineModel.Cache.create st key tok caller =
      ({ st with results := st.results ++ [(caller, Except.ok m)] },
        .cached m) := by
    unfold OutlineModel.Cache.create
    rw [h1]
    simp [h2]
  refine ⟨hcreate, ?_⟩
  rw [hcreate]
  unfold OutlineModel.Cache.cancelToken
  by_cases hmem : tok ∈ st.cancelledTokens
  · simp [hmem]
  · have hfilter : (st.listeners.filter fun p => p.1 == tok) = [] := by
      rw [List.filter_eq_nil_iff]
      intro p hp
      simpa using h3 p hp
    simp [hmem, hfilter]

/-- Witness for C10: an entry for key `7` created by caller `101` and then
resolved with model `42`; caller `102` with fresh token `2` is served the
cached model, and cancelling token `2` disturbs neither heap nor map. -/
theorem outline_cached_entry_no_listener_witness :
    (OutlineModel.alookup
        (OutlineModel.Cache.resolveEntry
          (OutlineModel.Cache.create {} 7 1 101).1 0 42).requests 7 = some 0) ∧
    ((OutlineModel.Cache.resolveEntry
        (OutlineModel.Cache.create {} 7 1 101).1 0 42).entry 0).model = some 42 ∧
    (∀ p ∈ (OutlineModel.Cache.resolveEntry
        (OutlineModel.Cache.create {} 7 1 101).1 0 42).listeners, p.1 ≠ 2) ∧
    (OutlineModel.Cache.create
        (OutlineModel.Cache.resolveEntry
          (OutlineModel.Cache.create {} 7 1 101).1 0 42) 7 2 102 =
      ({ (OutlineModel.Cache.resolveEntry
            (OutlineModel.Cache.create {} 7 1 101).1 0 42) with
          results := (OutlineModel.Cache.resolveEntry
            (OutlineModel.Cache.create {} 7 1 101).1 0 42).results ++
              [(102, Except.ok 42)] }, .cached 42) ∧
      (OutlineModel.Cache.cancelToken
          (OutlineModel.Cache.create
            (OutlineModel.Cache.resolveEntry
              (OutlineModel.Cache.create {} 7 1 101).1 0 42) 7 2 102).1
          2).heap =
        (OutlineModel.Cache.resolveEntry
          (OutlineModel.Cache.create {} 7 1 101).1 0 42).heap ∧
      (OutlineModel.Cache.cancelToken
          (OutlineModel.Cache.create
            (OutlineModel.Cache.resolveEntry
              (OutlineModel.Cache.create {} 7 1 101).1 0 42) 7 2 102).1
          2).requests =
        (OutlineModel.Cache.resolveEntry
          (OutlineModel.Cache.create {} 7 1 101).1 0 42).requests) :=
  ⟨by decide, by decide, by decide,
    outline_cached_entry_no_listener _ 7 2 102 0 42
      (by decide) (by decide) (by decide)⟩

/-- Counterexample to claim C4 as stated: with the provider registry
changing during each of the first two attempts (while the external token is
never cancelled), `_create` runs the underlying start three times — it
retries more than once. -/
theorem outline_create_retry_counterexample :
    OutlineModel.createInvocations (fun n => decide (n < 2)) (fun _ => false)
        10 0 = 3 ∧
    ¬ OutlineModel.createInvocations (fun n => decide (n < 2)) (fun _ => false)
        10 0 ≤ 2 := by decide

/-- `_create` keeps retrying while each attempt suffers a spurious internal
cancellation: with the race active on attempts `n, …, k - 1`, the attempt
count from `n` is `k - n + 1`. -/
theorem createInvocations_consecutive_races :
    ∀ (fuel n k : Nat), n ≤ k → k - n < fuel →
      OutlineModel.createInvocations (fun m => decide (m < k)) (fun _ => false)
        fuel n = (k - n) + 1 := by
  intro fuel
  induction fuel with
  | zero =>
    intro n k _ hlt
    omega
  | succ fuel ih =>
    intro n k hnk hlt
    simp only [OutlineModel.createInvocations]
    by_cases hn : n < k
    · rw [if_pos (by simp [hn]), ih (n + 1) k (by omega) (by omega)]
      omega
    · rw [if_neg (by simp [hn])]
      omega

/-- Claim C4 (amended): when the internal cancellation token fires but the
caller-supplied external token was not cancelled, `_create` transparently
retries the underlying start — and it does so on every such occurrence, not
at most once: `k` consecutive spurious cancellations yield `k + 1` physical
runs of the underlying start. -/
theorem outline_create_retries_every_race (k fuel : Nat) (h : k < fuel) :
    OutlineModel.createInvocations (fun m => decide (m < k)) (fun _ => false)
      fuel 0 = k + 1 := by
  have hmain := createInvocations_consecutive_races fuel 0 k (Nat.zero_le k)
    (by omega)
  simpa using hmain

/-- Witness for the amended C4 at `k = 2`: two consecutive spurious
cancellations produce three runs. -/
theorem outline_create_retries_every_race_witness :
    2 < 10 ∧
    OutlineModel.createInvocations (fun m => decide (m < 2)) (fun _ => false)
      10 0 = 2 + 1 :=
  ⟨by decide, outline_create_retries_every_race 2 10 (by decide)⟩
